import Mathlib

/-!
Shallow embedding of the CSV join engine of `src/utils.py`
(`check`, `join`, `files_innerjoin`, `files_leftouterjoin`,
`files_rightouterjoin`) and verification of the specification's claims.

Modelling conventions:
* a Python `dict` row (from `csv.DictReader`) is an association list
  `Row = List (String × String)`; keys of an actual dict are unique and
  `findVal` returns the first binding, matching dict lookup;
* Python exceptions (`KeyError` from `data1[key.lower()]`, `IndexError`
  from `file1_data[0]` / `data_list[0]`) are modelled with `Except PyError`;
* `dict.update` is `updateRow` (existing keys overwritten in place, new
  keys appended in order — exactly CPython's insertion-order semantics);
* `check` returns the truthy tuple `(data1, data2)` on success and `False`
  otherwise; the model returns `.ok true` / `.ok false` for truthy/falsy;
* the crucial aliasing of `join` — `data_list.append(data1)` appends a
  reference to the very dict that later `data1.update(data2)` calls keep
  mutating — is modelled by computing, per A-row, the final mutated row
  and the number of appended references; the returned match list holds
  that final row once per match, which is exactly what the Python list
  holds after `join` returns;
* the file-level drivers are modelled over a map `fs : String → Table`
  from filename to parsed table, and record which files were opened for
  reading and what (fieldnames, rows) were written to `result.csv`.
-/

namespace Lesson018

set_option synthInstance.maxSize 512

/-- Python runtime errors that the join path can raise. -/
inductive PyError where
  | keyError
  | indexError
deriving DecidableEq, Repr

/-- A CSV row: ordered association list, as a Python dict with string keys. -/
abbrev Row := List (String × String)

/-- A table: list of rows, as `list(csv.DictReader(f))`. -/
abbrev Table := List Row

/-- Python's `str.lower()`: ASCII-style case folding, character by
character (a kernel-computable equivalent of `String.toLower`). -/
def pyLower (s : String) : String := String.mk (s.data.map Char.toLower)

/-- Dict lookup `r[k]` without the exception: first binding of `k`. -/
def findVal : Row → String → Option String
  | [], _ => none
  | p :: rest, k => if p.1 = k then some p.2 else findVal rest k

/-- `k in r.keys()`. -/
def hasKey : Row → String → Bool
  | [], _ => false
  | p :: rest, k => p.1 == k || hasKey rest k

/-- The ordered key list `list(r.keys())`. -/
def rowKeys (r : Row) : List String := r.map Prod.fst

/-- One step of `dict.update`: set key `k` to `v`, overwriting in place if
present (every binding of `k`, which for dict-like rows is the unique one),
appending at the end otherwise. -/
def updateOne (r : Row) (k v : String) : Row :=
  if hasKey r k then r.map (fun p => if p.1 = k then (p.1, v) else p)
  else r ++ [(k, v)]

/-- `r1.update(r2)`: fold `r2`'s bindings into `r1` in order. -/
def updateRow (r1 r2 : Row) : Row :=
  r2.foldl (fun acc p => updateOne acc p.1 p.2) r1

/-- `check(data1, data2, **kwargs)` from `src/utils.py`.

```
for key in kwargs.values():
    if data1[key.lower()] != data2[key.lower()]:
        return False
return data1, data2
```

`kw` is the ordered list `kwargs.values()`.  A missing key raises
`KeyError`.  Python returns the truthy tuple `(data1, data2)` or `False`;
the model returns the truthiness as a `Bool`. -/
def check (data1 data2 : Row) (kw : List String) : Except PyError Bool :=
  match kw with
  | [] => .ok true
  | key :: rest =>
    match findVal data1 (pyLower key), findVal data2 (pyLower key) with
    | some v1, some v2 =>
      if v1 ≠ v2 then .ok false else check data1 data2 rest
    | _, _ => .error .keyError

/-- The validation loop at the top of `join`:

```
for key in kwargs.values():
    if (key.lower() not in file1_data[0].keys()
            or key.lower() not in file2_data[0].keys()):
        return None
```

`file1_data[0]` is evaluated first and raises `IndexError` on an empty
table; the `or` short-circuits, so `file2_data[0]` is only evaluated when
the key was found in `file1_data[0]`.  `.ok false` models `return None`,
`.ok true` models falling through to the match loops. -/
def validateKeys (file1_data file2_data : Table) (kw : List String) :
    Except PyError Bool :=
  match kw with
  | [] => .ok true
  | key :: rest =>
    match file1_data.head? with
    | none => .error .indexError
    | some r1 =>
      if ¬ hasKey r1 (pyLower key) then .ok false
      else
        match file2_data.head? with
        | none => .error .indexError
        | some r2 =>
          if ¬ hasKey r2 (pyLower key) then .ok false
          else validateKeys file1_data file2_data rest

/-- The inner loop of `join` for one A-row `data1`:

```
for data2 in file2_data:
    if check(data1, data2, **kwargs):
        data1.update(data2)
        data_list.append(data1)
```

Returns the final mutated state of `data1` together with the number of
references to it appended to `data_list` (the appended entries alias
`data1`, so after the loop each of them holds the final state). -/
def joinInner (kw : List String) (data1 : Row) (bs : Table) :
    Except PyError (Row × Nat) :=
  match bs with
  | [] => .ok (data1, 0)
  | b :: rest =>
    match check data1 b kw with
    | .error e => .error e
    | .ok false => joinInner kw data1 rest
    | .ok true =>
      match joinInner kw (updateRow data1 b) rest with
      | .error e => .error e
      | .ok (r, n) => .ok (r, n + 1)

/-- The outer loop of `join`: process every A-row in order, yielding for
each the final mutated row and its appended-reference count. -/
def joinOuter (kw : List String) (as1 : Table) (bs : Table) :
    Except PyError (List (Row × Nat)) :=
  match as1 with
  | [] => .ok []
  | a :: rest =>
    match joinInner kw a bs with
    | .error e => .error e
    | .ok fa =>
      match joinOuter kw rest bs with
      | .error e => .error e
      | .ok l => .ok (fa :: l)

/-- `join(file1_data, file2_data, **kwargs)` from `src/utils.py`.

Validates the join columns against row 0 of each table (`None` on a
missing column, modelled `.ok none`), then runs the nested match loops,
and finally returns `(file1_data, data_list, data_list[0].keys())` —
where `data_list[0]` raises `IndexError` when no pair matched.  The
returned `file1_data` holds the mutated rows, and each `data_list` entry
is the final state of the A-row it aliases. -/
def join (file1_data file2_data : Table) (kw : List String) :
    Except PyError (Option (Table × Table × List String)) :=
  match validateKeys file1_data file2_data kw with
  | .error e => .error e
  | .ok false => .ok none
  | .ok true =>
    match joinOuter kw file1_data file2_data with
    | .error e => .error e
    | .ok results =>
      let newA := results.map Prod.fst
      let dataList := results.flatMap (fun p => List.replicate p.2 p.1)
      match dataList.head? with
      | none => .error .indexError
      | some fst => .ok (some (newA, dataList, rowKeys fst))

deriving instance DecidableEq for Except

/-- Observable behaviour of one `files_*join` call: the value returned to
the caller (or the propagated exception), the files opened for reading (in
order), and the header/rows written to `result.csv` (if anything was
written). -/
structure DriverOut where
  result : Except PyError (Option Table)
  reads : List String
  writes : Option (List String × Table)
deriving DecidableEq, Repr

/-- `files_innerjoin(filename1, filename2, **kwargs)`: rejects an empty
`kwargs` before any I/O, reads both files, joins, and on a truthy result
writes `output[1]` (the match list) under fieldnames `output[2]` and
returns `output[1]`.  A `None` from `join` is returned as-is without
writing; an exception propagates. -/
def files_innerjoin (fs : String → Table) (filename1 filename2 : String)
    (kw : List String) : DriverOut :=
  if kw.isEmpty then ⟨.ok none, [], none⟩
  else
    match join (fs filename1) (fs filename2) kw with
    | .error e => ⟨.error e, [filename1, filename2], none⟩
    | .ok none => ⟨.ok none, [filename1, filename2], none⟩
    | .ok (some out) =>
      ⟨.ok (some out.2.1), [filename1, filename2], some (out.2.2, out.2.1)⟩

/-- `files_leftouterjoin`: same as `files_innerjoin` but writes and returns
`output[0]` (the mutated left table). -/
def files_leftouterjoin (fs : String → Table) (filename1 filename2 : String)
    (kw : List String) : DriverOut :=
  if kw.isEmpty then ⟨.ok none, [], none⟩
  else
    match join (fs filename1) (fs filename2) kw with
    | .error e => ⟨.error e, [filename1, filename2], none⟩
    | .ok none => ⟨.ok none, [filename1, filename2], none⟩
    | .ok (some out) =>
      ⟨.ok (some out.1), [filename1, filename2], some (out.2.2, out.1)⟩

/-- `files_rightouterjoin`: reads both files, then calls
`join(file2_data, file1_data, **kwargs)` — arguments swapped — and writes
and returns `output[0]` (the mutated `file2` table). -/
def files_rightouterjoin (fs : String → Table) (filename1 filename2 : String)
    (kw : List String) : DriverOut :=
  if kw.isEmpty then ⟨.ok none, [], none⟩
  else
    match join (fs filename2) (fs filename1) kw with
    | .error e => ⟨.error e, [filename1, filename2], none⟩
    | .ok none => ⟨.ok none, [filename1, filename2], none⟩
    | .ok (some out) =>
      ⟨.ok (some out.1), [filename1, filename2], some (out.2.2, out.1)⟩

/-- The spec's conjunctive equality predicate on two rows: every named
column (lower-cased) holds equal values in both rows. -/
def rowsMatch (kw : List String) (a b : Row) : Bool :=
  kw.all (fun k => findVal a (pyLower k) == findVal b (pyLower k))

/-- Modelled from the spec: the match list the spec describes — one entry
per matching pair `(a, b)` in A-major, B-minor order, **each entry carrying
that pair's merged values** (`a` merged with that particular `b`). -/
def specMatchList (as1 bs : Table) (kw : List String) : Table :=
  as1.flatMap (fun a =>
    (bs.filter (fun b => rowsMatch kw a b)).map (fun b => updateRow a b))

/-- The final state of an A-row after its inner loop: `a` merged in order
with every B-row matching it. -/
def finalRow (kw : List String) (bs : Table) (a : Row) : Row :=
  (bs.filter (fun b => rowsMatch kw a b)).foldl updateRow a

/-- The match list the code actually builds: one (aliased) entry per
matching pair, every entry of a given A-row equal to that row's final
merged state. -/
def codeMatchList (as1 bs : Table) (kw : List String) : Table :=
  as1.flatMap (fun a =>
    List.replicate (bs.countP (fun b => rowsMatch kw a b)) (finalRow kw bs a))

/-! ### Basic lemmas about row lookup and `dict.update` -/

theorem hasKey_eq_isSome (r : Row) (k : String) :
    hasKey r k = (findVal r k).isSome := by
  induction r with
  | nil => rfl
  | cons p rest ih =>
    by_cases h : p.1 = k <;> simp [hasKey, findVal, h, ih]

theorem rowKeys_cons (q : String × String) (r : Row) :
    rowKeys (q :: r) = q.1 :: rowKeys r := rfl

theorem findVal_isSome_iff_mem (r : Row) (k : String) :
    (findVal r k).isSome ↔ k ∈ rowKeys r := by
  induction r with
  | nil => simp [findVal, rowKeys]
  | cons p rest ih =>
    rw [rowKeys_cons, List.mem_cons]
    by_cases h : p.1 = k
    · simp [findVal, h]
    · rw [show findVal (p :: rest) k = findVal rest k by simp [findVal, h]]
      rw [ih]
      constructor
      · exact fun hm => Or.inr hm
      · rintro (hm | hm)
        · exact absurd hm.symm h
        · exact hm

theorem findVal_eq_none_of_not_mem {r : Row} {k : String}
    (h : k ∉ rowKeys r) : findVal r k = none := by
  have h1 := findVal_isSome_iff_mem r k
  cases h2 : findVal r k with
  | none => rfl
  | some v => rw [h2] at h1; simp at h1; exact absurd h1 h

theorem findVal_append (r s : Row) (k : String) :
    findVal (r ++ s) k =
      match findVal r k with
      | some v => some v
      | none => findVal s k := by
  induction r with
  | nil => rfl
  | cons p rest ih =>
    by_cases h : p.1 = k <;> simp [findVal, h, ih]

theorem findVal_map_replace_self {r : Row} {k : String}
    (hk : hasKey r k = true) (v : String) :
    findVal (r.map (fun p => if p.1 = k then (p.1, v) else p)) k = some v := by
  induction r with
  | nil => simp [hasKey] at hk
  | cons p rest ih =>
    by_cases hp : p.1 = k
    · simp [findVal, hp]
    · have hk2 : hasKey rest k = true := by simpa [hasKey, hp] using hk
      simp [findVal, hp, ih hk2]

theorem findVal_map_replace_other (r : Row) {k k1 : String} (h : ¬ k1 = k)
    (v : String) :
    findVal (r.map (fun p => if p.1 = k then (p.1, v) else p)) k1 =
      findVal r k1 := by
  induction r with
  | nil => rfl
  | cons p rest ih =>
    by_cases hp : p.1 = k
    · have h2 : ¬ p.1 = k1 := by rw [hp]; exact fun hh => h hh.symm
      have h3 : ¬ k = k1 := fun hh => h hh.symm
      simp [findVal, hp, h2, h3, ih]
    · simp only [List.map_cons, if_neg hp]
      by_cases hq : p.1 = k1 <;> simp [findVal, hq, ih]

theorem findVal_updateOne (r : Row) (k v k1 : String) :
    findVal (updateOne r k v) k1 = if k1 = k then some v else findVal r k1 := by
  by_cases hk : hasKey r k = true
  · rw [updateOne, if_pos hk]
    by_cases h1 : k1 = k
    · subst h1; rw [findVal_map_replace_self hk v, if_pos rfl]
    · rw [findVal_map_replace_other r h1 v, if_neg h1]
  · rw [updateOne, if_neg hk, findVal_append]
    have hnone : findVal r k = none := by
      rw [hasKey_eq_isSome] at hk
      cases h2 : findVal r k with
      | none => rfl
      | some v1 => rw [h2] at hk; simp at hk
    by_cases h1 : k1 = k
    · subst h1; rw [hnone]; simp [findVal]
    · have h2 : ¬ k = k1 := fun hh => h1 hh.symm
      cases h3 : findVal r k1 with
      | none => simp [findVal, h1, h2]
      | some v1 => simp [h1]

theorem updateRow_nil (a : Row) : updateRow a [] = a := rfl

theorem updateRow_cons (a : Row) (q : String × String) (b : Row) :
    updateRow a (q :: b) = updateRow (updateOne a q.1 q.2) b := rfl

theorem findVal_updateRow {b : Row} (hb : (rowKeys b).Nodup) (a : Row)
    (k : String) :
    findVal (updateRow a b) k =
      match findVal b k with
      | some v => some v
      | none => findVal a k := by
  induction b generalizing a with
  | nil => simp [updateRow_nil, findVal]
  | cons q rest ih =>
    rw [rowKeys_cons, List.nodup_cons] at hb
    obtain ⟨hq, hrest⟩ := hb
    rw [updateRow_cons, ih hrest]
    by_cases h1 : k = q.1
    · subst h1
      rw [findVal_eq_none_of_not_mem hq]
      rw [show findVal (q :: rest) q.1 = some q.2 by simp [findVal]]
      simp [findVal_updateOne]
    · have hq1 : ¬ q.1 = k := fun hh => h1 hh.symm
      rw [show findVal (q :: rest) k = findVal rest k by simp [findVal, hq1]]
      cases h2 : findVal rest k with
      | some v => simp
      | none => simp [findVal_updateOne, h1]

theorem findVal_updateRow_isSome {b : Row} (hb : (rowKeys b).Nodup)
    {a : Row} {k : String} (ha : (findVal a k).isSome) :
    (findVal (updateRow a b) k).isSome := by
  rw [findVal_updateRow hb]
  cases h : findVal b k <;> simp [ha]

/-! ### `check` against the spec's conjunctive equality predicate -/

theorem check_eq_rowsMatch {a b : Row} {kw : List String}
    (ha : ∀ k ∈ kw, (findVal a (pyLower k)).isSome)
    (hb : ∀ k ∈ kw, (findVal b (pyLower k)).isSome) :
    check a b kw = .ok (rowsMatch kw a b) := by
  induction kw with
  | nil => rfl
  | cons key rest ih =>
    obtain ⟨v1, h1⟩ := Option.isSome_iff_exists.mp (ha key (by simp))
    obtain ⟨v2, h2⟩ := Option.isSome_iff_exists.mp (hb key (by simp))
    have ih2 := ih (fun k hk => ha k (by simp [hk])) (fun k hk => hb k (by simp [hk]))
    rw [check, h1, h2, rowsMatch, List.all_cons, h1, h2]
    by_cases hv : v1 = v2
    · subst hv
      simp only [ne_eq, not_true_eq_false, if_false, ite_false]
      rw [show ((some v1 == some v1) = true) by simp]
      simp only [Bool.true_and]
      exact ih2
    · simp [hv]

theorem rowsMatch_findVal_eq {kw : List String} {a b : Row}
    (hm : rowsMatch kw a b = true) :
    ∀ k ∈ kw, findVal a (pyLower k) = findVal b (pyLower k) := by
  intro k hk
  rw [rowsMatch, List.all_eq_true] at hm
  have := hm k hk
  simpa using this

theorem allKeys_congr {l : List String} {p q : String → Bool}
    (h : ∀ a ∈ l, p a = q a) : l.all p = l.all q := by
  induction l with
  | nil => rfl
  | cons a t ih =>
    rw [List.all_cons, List.all_cons, h a (by simp),
      ih (fun x hx => h x (by simp [hx]))]

theorem rowsMatch_updateRow {kw : List String} {a b : Row}
    (hm : rowsMatch kw a b = true) (hb : (rowKeys b).Nodup) (b1 : Row) :
    rowsMatch kw (updateRow a b) b1 = rowsMatch kw a b1 := by
  have key : ∀ k ∈ kw, findVal (updateRow a b) (pyLower k) = findVal a (pyLower k) := by
    intro k hk
    rw [findVal_updateRow hb]
    have heq := rowsMatch_findVal_eq hm k hk
    cases h2 : findVal b (pyLower k) with
    | none => simp
    | some v => rw [heq, h2]
  rw [rowsMatch, rowsMatch]
  exact allKeys_congr (fun k hk => by rw [key k hk])

/-! ### The match loops compute predicate-filtered results -/

theorem joinInner_eq {kw : List String} {bs : Table} {a : Row}
    (ha : ∀ k ∈ kw, (findVal a (pyLower k)).isSome)
    (hb : ∀ b ∈ bs, ∀ k ∈ kw, (findVal b (pyLower k)).isSome)
    (hnd : ∀ b ∈ bs, (rowKeys b).Nodup) :
    joinInner kw a bs =
      .ok (finalRow kw bs a, bs.countP (fun b => rowsMatch kw a b)) := by
  induction bs generalizing a with
  | nil => rfl
  | cons b rest ih =>
    have hb0 : ∀ k ∈ kw, (findVal b (pyLower k)).isSome := hb b (by simp)
    have hbrest : ∀ b1 ∈ rest, ∀ k ∈ kw, (findVal b1 (pyLower k)).isSome :=
      fun b1 h1 => hb b1 (by simp [h1])
    have hndb : (rowKeys b).Nodup := hnd b (by simp)
    have hndrest : ∀ b1 ∈ rest, (rowKeys b1).Nodup :=
      fun b1 h1 => hnd b1 (by simp [h1])
    rw [joinInner, check_eq_rowsMatch ha hb0]
    by_cases hm : rowsMatch kw a b = true
    · rw [hm]
      have ha2 : ∀ k ∈ kw, (findVal (updateRow a b) (pyLower k)).isSome :=
        fun k hk => findVal_updateRow_isSome hndb (ha k hk)
      rw [ih ha2 hbrest hndrest]
      have hfil : rest.filter (fun b1 => rowsMatch kw (updateRow a b) b1) =
          rest.filter (fun b1 => rowsMatch kw a b1) :=
        List.filter_congr (fun b1 _ => by rw [rowsMatch_updateRow hm hndb b1])
      have hcnt : rest.countP (fun b1 => rowsMatch kw (updateRow a b) b1) =
          rest.countP (fun b1 => rowsMatch kw a b1) := by
        rw [List.countP_eq_length_filter, List.countP_eq_length_filter, hfil]
      have hside : finalRow kw (b :: rest) a = finalRow kw rest (updateRow a b) := by
        rw [finalRow, finalRow, List.filter_cons, if_pos hm, List.foldl_cons, hfil]
      rw [hside, hcnt, List.countP_cons, hm]
      simp
    · rw [Bool.not_eq_true] at hm
      rw [hm, ih ha hbrest hndrest, finalRow, finalRow, List.filter_cons,
        List.countP_cons, hm]
      simp

theorem joinOuter_eq {kw : List String} {as1 bs : Table}
    (hA : ∀ a ∈ as1, ∀ k ∈ kw, (findVal a (pyLower k)).isSome)
    (hb : ∀ b ∈ bs, ∀ k ∈ kw, (findVal b (pyLower k)).isSome)
    (hnd : ∀ b ∈ bs, (rowKeys b).Nodup) :
    joinOuter kw as1 bs =
      .ok (as1.map (fun a =>
        (finalRow kw bs a, bs.countP (fun b => rowsMatch kw a b)))) := by
  induction as1 with
  | nil => rfl
  | cons a rest ih =>
    rw [joinOuter, joinInner_eq (hA a (by simp)) hb hnd,
      ih (fun a1 h1 => hA a1 (by simp [h1]))]
    simp

/-- With nonempty tables whose first rows contain every (lower-cased) join
column, the validation loop falls through. -/
theorem validateKeys_ok {as1 bs : Table} {kw : List String} {ra rb : Row}
    (h1 : as1.head? = some ra) (h2 : bs.head? = some rb)
    (h3 : ∀ k ∈ kw, hasKey ra (pyLower k) = true ∧ hasKey rb (pyLower k) = true) :
    validateKeys as1 bs kw = .ok true := by
  induction kw with
  | nil => rfl
  | cons key rest ih =>
    obtain ⟨ha, hb⟩ := h3 key (by simp)
    rw [validateKeys, h1, h2]
    simp only [ha, hb, not_true_eq_false, if_false, ite_false]
    exact ih (fun k hk => h3 k (by simp [hk]))

/-- If `join` returned a truthy triple, the validation loop fell through. -/
theorem validateKeys_ok_of_join_ok {as1 bs : Table} {kw : List String}
    {t : Table × Table × List String}
    (h : join as1 bs kw = .ok (some t)) :
    validateKeys as1 bs kw = .ok true := by
  rcases hv : validateKeys as1 bs kw with e | b
  · rw [join, hv] at h; cases h
  · cases b
    · rw [join, hv] at h; cases h
    · rfl

theorem flatMap_map_pair {α : Type} (l : List α) (f : α → Row) (g : α → Nat) :
    (l.map (fun a => (f a, g a))).flatMap (fun p => List.replicate p.2 p.1) =
      l.flatMap (fun a => List.replicate (g a) (f a)) := by
  induction l with
  | nil => rfl
  | cons a rest ih => simp only [List.map_cons, List.flatMap_cons, ih]

/-- Master description of `join` once validation has fallen through:
the left table is row-wise finalised, the match list is `codeMatchList`,
and an empty match list raises `IndexError` (`data_list[0]`). -/
theorem join_eq_of_valid {as1 bs : Table} {kw : List String}
    (hA : ∀ a ∈ as1, ∀ k ∈ kw, (findVal a (pyLower k)).isSome)
    (hb : ∀ b ∈ bs, ∀ k ∈ kw, (findVal b (pyLower k)).isSome)
    (hnd : ∀ b ∈ bs, (rowKeys b).Nodup)
    (hval : validateKeys as1 bs kw = .ok true) :
    join as1 bs kw =
      match (codeMatchList as1 bs kw).head? with
      | none => .error .indexError
      | some fst =>
        .ok (some (as1.map (fun a => finalRow kw bs a),
          codeMatchList as1 bs kw, rowKeys fst)) := by
  rw [join, hval, joinOuter_eq hA hb hnd]
  have hmap : (as1.map (fun a =>
      (finalRow kw bs a, bs.countP (fun b => rowsMatch kw a b)))).map Prod.fst =
      as1.map (fun a => finalRow kw bs a) := by
    rw [List.map_map]; rfl
  have hflat : (as1.map (fun a =>
      (finalRow kw bs a, bs.countP (fun b => rowsMatch kw a b)))).flatMap
        (fun p => List.replicate p.2 p.1) = codeMatchList as1 bs kw := by
    rw [codeMatchList]
    exact flatMap_map_pair as1 _ _
  simp only [hmap, hflat]

/-- A missing (lower-cased) join column in either first row makes the
validation loop return `None`. -/
theorem validateKeys_none {as1 bs : Table} {kw : List String} {ra rb : Row}
    (h1 : as1.head? = some ra) (h2 : bs.head? = some rb)
    (h3 : ∃ k ∈ kw, hasKey ra (pyLower k) = false ∨ hasKey rb (pyLower k) = false) :
    validateKeys as1 bs kw = .ok false := by
  induction kw with
  | nil => obtain ⟨k, hk, _⟩ := h3; cases hk
  | cons key rest ih =>
    rw [validateKeys, h1, h2]
    by_cases hra : hasKey ra (pyLower key) = true
    · simp only [hra, not_true_eq_false, if_false, ite_false]
      by_cases hrb : hasKey rb (pyLower key) = true
      · simp only [hrb, not_true_eq_false, if_false, ite_false]
        apply ih
        obtain ⟨k, hk, hmiss⟩ := h3
        rcases List.mem_cons.mp hk with heq | hmem
        · subst heq
          rcases hmiss with hm | hm

          · rw [hra] at hm; cases hm
          · rw [hrb] at hm; cases hm
        · exact ⟨k, hmem, hmiss⟩
      · have : hasKey rb (pyLower key) = false := by
          cases h : hasKey rb (pyLower key)
          · rfl
          · exact absurd h hrb
        simp [this]
    · have : hasKey ra (pyLower key) = false := by
        cases h : hasKey ra (pyLower key)
        · rfl
        · exact absurd h hra
      simp [this]

/-- When no B-row matches `a`, the inner loop never mutates and never
appends. -/
theorem joinInner_nomatch {kw : List String} {bs : Table} {a : Row}
    (ha : ∀ k ∈ kw, (findVal a (pyLower k)).isSome)
    (hb : ∀ b ∈ bs, ∀ k ∈ kw, (findVal b (pyLower k)).isSome)
    (hnm : ∀ b ∈ bs, rowsMatch kw a b = false) :
    joinInner kw a bs = .ok (a, 0) := by
  induction bs with
  | nil => rfl
  | cons b rest ih =>
    rw [joinInner, check_eq_rowsMatch ha (hb b (by simp)), hnm b (by simp)]
    exact ih (fun b1 h1 k hk => hb b1 (by simp [h1]) k hk)
      (fun b1 h1 => hnm b1 (by simp [h1]))

theorem joinOuter_nomatch {kw : List String} {as1 bs : Table}
    (hA : ∀ a ∈ as1, ∀ k ∈ kw, (findVal a (pyLower k)).isSome)
    (hb : ∀ b ∈ bs, ∀ k ∈ kw, (findVal b (pyLower k)).isSome)
    (hnm : ∀ a ∈ as1, ∀ b ∈ bs, rowsMatch kw a b = false) :
    joinOuter kw as1 bs = .ok (as1.map (fun a => (a, 0))) := by
  induction as1 with
  | nil => rfl
  | cons a rest ih =>
    rw [joinOuter, joinInner_nomatch (hA a (by simp)) hb (hnm a (by simp)),
      ih (fun a1 h1 => hA a1 (by simp [h1])) (fun a1 h1 => hnm a1 (by simp [h1]))]
    rfl

/-- With zero matching pairs, `data_list` stays empty and `data_list[0]`
raises `IndexError`. -/
theorem join_nomatch {as1 bs : Table} {kw : List String}
    (hA : ∀ a ∈ as1, ∀ k ∈ kw, (findVal a (pyLower k)).isSome)
    (hb : ∀ b ∈ bs, ∀ k ∈ kw, (findVal b (pyLower k)).isSome)
    (hnm : ∀ a ∈ as1, ∀ b ∈ bs, rowsMatch kw a b = false)
    (hval : validateKeys as1 bs kw = .ok true) :
    join as1 bs kw = .error .indexError := by
  rw [join, hval, joinOuter_nomatch hA hb hnm]
  have : (as1.map (fun a => (a, 0))).flatMap
      (fun p : Row × Nat => List.replicate p.2 p.1) = [] := by
    induction as1 with
    | nil => rfl
    | cons a rest ih => simp [ih]
  simp only [this]
  rfl

theorem beqOptComm (x y : Option String) : (x == y) = (y == x) := by
  by_cases h : x = y
  · subst h; simp
  · rw [beq_eq_false_iff_ne.mpr h, beq_eq_false_iff_ne.mpr (Ne.symm h)]

theorem rowsMatch_comm (kw : List String) (a b : Row) :
    rowsMatch kw a b = rowsMatch kw b a := by
  rw [rowsMatch, rowsMatch]
  exact allKeys_congr (fun k _ => beqOptComm _ _)

theorem rowsMatch_eq_true_iff (kw : List String) (a b : Row) :
    rowsMatch kw a b = true ↔
      ∀ k ∈ kw, findVal a (pyLower k) = findVal b (pyLower k) := by
  rw [rowsMatch, List.all_eq_true]
  constructor
  · intro h k hk; simpa using h k hk
  · intro h k hk; simp [h k hk]

/-- Pointwise description of a fold of `dict.update`s over same-shaped
rows: a column of the updating rows ends with the **last** row's value,
any other column keeps `a`'s value. -/
theorem findVal_foldl_update (l : List Row) (cols : List String)
    (hnd : cols.Nodup) (hcols : ∀ b ∈ l, rowKeys b = cols) (a : Row)
    (c : String) :
    findVal (l.foldl updateRow a) c =
      if c ∈ cols then findVal ((l.getLast?).getD a) c else findVal a c := by
  induction l generalizing a with
  | nil => by_cases hc : c ∈ cols <;> simp [hc]
  | cons b rest ih =>
    have hkb : rowKeys b = cols := hcols b (by simp)
    have hndb : (rowKeys b).Nodup := by rw [hkb]; exact hnd
    rw [List.foldl_cons, ih (fun b1 h1 => hcols b1 (by simp [h1])) (updateRow a b)]
    by_cases hc : c ∈ cols
    · rw [if_pos hc, if_pos hc]
      cases rest with
      | nil =>
        have hsome : (findVal b c).isSome :=
          (findVal_isSome_iff_mem b c).mpr (by rw [hkb]; exact hc)
        obtain ⟨v, hv⟩ := Option.isSome_iff_exists.mp hsome
        simp only [List.getLast?_nil, Option.getD_none, List.getLast?_singleton,
          Option.getD_some]
        rw [findVal_updateRow hndb, hv]
      | cons b2 rest2 =>
        obtain ⟨x, hx⟩ := Option.isSome_iff_exists.mp
          (List.getLast?_isSome.mpr (List.cons_ne_nil b2 rest2))
        rw [hx, List.getLast?_cons_cons, hx]
        rfl
    · rw [if_neg hc, if_neg hc, findVal_updateRow hndb,
        findVal_eq_none_of_not_mem (by rw [hkb]; exact hc)]

/-! ### Concrete fixtures -/

/-- Table A of the spec's scenario: `[{id:"1",name:"x"},{id:"2",name:"y"}]`. -/
def tblA : Table := [[("id", "1"), ("name", "x")], [("id", "2"), ("name", "y")]]

/-- Table B of the spec's scenario: `[{id:"1",dept:"eng"},{id:"3",dept:"ops"}]`. -/
def tblB : Table := [[("id", "1"), ("dept", "eng")], [("id", "3"), ("dept", "ops")]]

/-- A file system holding the scenario's two input files. -/
def fsAB : String → Table :=
  fun s => if s = "one.csv" then tblA else if s = "two.csv" then tblB else []

/-- One A-row matching two B-rows (for the aliasing behaviour). -/
def tblA1 : Table := [[("id", "1"), ("v", "a")]]

/-- Two B-rows with the same key value, different payloads. -/
def tblB2 : Table := [[("id", "1"), ("w", "x")], [("id", "1"), ("w", "y")]]

/-! ### Claims -/

/-- Claim C2: for A = `[{id:"1",name:"x"},{id:"2",name:"y"}]`,
B = `[{id:"1",dept:"eng"},{id:"3",dept:"ops"}]` and spec `{key:"id"}`,
the inner join returns exactly `[{id:"1",name:"x",dept:"eng"}]` (and
writes it under the fieldnames `id, name, dept`). -/
theorem innerjoin_example_id_tables :
    files_innerjoin fsAB "one.csv" "two.csv" ["id"] =
      ⟨.ok (some [[("id", "1"), ("name", "x"), ("dept", "eng")]]),
        ["one.csv", "two.csv"],
        some (["id", "name", "dept"],
          [[("id", "1"), ("name", "x"), ("dept", "eng")]])⟩ := by
  decide

/-- Claim C6: each of the three file-level drivers, called with an empty
JoinSpec, returns the absent result immediately: no file is opened for
reading and nothing is written. -/
theorem drivers_reject_empty_spec (g : String → Table) (s1 s2 : String) :
    files_innerjoin g s1 s2 [] = ⟨.ok none, [], none⟩
    ∧ files_leftouterjoin g s1 s2 [] = ⟨.ok none, [], none⟩
    ∧ files_rightouterjoin g s1 s2 [] = ⟨.ok none, [], none⟩ :=
  ⟨rfl, rfl, rfl⟩

/-- Claim C7: for every file system, every pair of files and every
JoinSpec, `files_rightouterjoin(f1, f2)` returns to its caller exactly
what `files_leftouterjoin(f2, f1)` returns (both drive
`join(file2_data, file1_data)` and hand back `output[0]`). -/
theorem rightouter_eq_leftouter_swapped (g : String → Table)
    (s1 s2 : String) (kw : List String) :
    (files_rightouterjoin g s1 s2 kw).result =
      (files_leftouterjoin g s2 s1 kw).result := by
  by_cases hkw : kw.isEmpty
  · simp [files_rightouterjoin, files_leftouterjoin, hkw]
  · rcases hj : join (g s2) (g s1) kw with e | o
    · simp [files_rightouterjoin, files_leftouterjoin, hkw, hj]
    · rcases o with _ | out <;>
        simp [files_rightouterjoin, files_leftouterjoin, hkw, hj]

theorem codeMatchList_length (A B : Table) (kw : List String) :
    (codeMatchList A B kw).length = (specMatchList A B kw).length := by
  simp only [codeMatchList, specMatchList, List.length_flatMap,
    List.countP_eq_length_filter]
  have h : (List.length ∘ fun a : Row =>
        List.replicate (List.filter (fun b => rowsMatch kw a b) B).length
          (finalRow kw B a)) =
      (List.length ∘ fun a : Row =>
        List.map (fun b => updateRow a b)
          (List.filter (fun b => rowsMatch kw a b) B)) := by
    funext a
    simp
  rw [h]

/-- Claim C1, counterexample: with A = `[{id:"1",v:"a"}]` and
B = `[{id:"1",w:"x"},{id:"1",w:"y"}]` on column `id`, both B-rows match the
single A-row, but because every appended match-list entry aliases the
mutated A-row, the returned match list holds the **last** merged record
twice — not the per-pair merged records the claim describes. -/
theorem innerjoin_match_list_aliasing_cex :
    join tblA1 tblB2 ["id"] =
      .ok (some ([[("id", "1"), ("v", "a"), ("w", "y")]],
        [[("id", "1"), ("v", "a"), ("w", "y")],
         [("id", "1"), ("v", "a"), ("w", "y")]],
        ["id", "v", "w"]))
    ∧ specMatchList tblA1 tblB2 ["id"] =
        [[("id", "1"), ("v", "a"), ("w", "x")],
         [("id", "1"), ("v", "a"), ("w", "y")]]
    ∧ ¬ ([[("id", "1"), ("v", "a"), ("w", "y")],
          [("id", "1"), ("v", "a"), ("w", "y")]] : Table)
        = specMatchList tblA1 tblB2 ["id"] :=
  ⟨by decide, by decide, by decide⟩

/-- Claim C1, amended: for non-empty JoinSpec with all named columns
present (case-insensitively) in every row, the match list has exactly one
entry per matching pair (a, b), in A-major, B-minor order — same length and
positions as the spec's pairwise list — but each entry for a given A-row
carries that row's final merged values (its last match wins), not the
individual pair's values. -/
theorem innerjoin_match_list_amended (A B : Table) (kw : List String)
    (t : Table × Table × List String)
    (h0 : kw ≠ [])
    (h1 : ∀ a ∈ A, ∀ k ∈ kw, hasKey a (pyLower k) = true)
    (h2 : ∀ b ∈ B, ∀ k ∈ kw, hasKey b (pyLower k) = true)
    (h3 : ∀ b ∈ B, (rowKeys b).Nodup)
    (h4 : join A B kw = .ok (some t)) :
    t.2.1 = codeMatchList A B kw
    ∧ t.2.1.length = (specMatchList A B kw).length := by
  have hA : ∀ a ∈ A, ∀ k ∈ kw, (findVal a (pyLower k)).isSome := by
    intro a ha k hk
    have h := h1 a ha k hk; rwa [hasKey_eq_isSome] at h
  have hB : ∀ b ∈ B, ∀ k ∈ kw, (findVal b (pyLower k)).isSome := by
    intro b hb k hk
    have h := h2 b hb k hk; rwa [hasKey_eq_isSome] at h
  have hval := validateKeys_ok_of_join_ok h4
  rw [join_eq_of_valid hA hB h3 hval] at h4
  cases hh : (codeMatchList A B kw).head? with
  | none => rw [hh] at h4; cases h4
  | some fst =>
    rw [hh] at h4
    simp only [Except.ok.injEq, Option.some.injEq] at h4
    rw [← h4]
    exact ⟨rfl, codeMatchList_length A B kw⟩

/-- Claim C1, amended, witness at the two-match fixture. -/
theorem innerjoin_match_list_amended_witness :
    ([[("id", "1"), ("v", "a"), ("w", "y")],
      [("id", "1"), ("v", "a"), ("w", "y")]] : Table)
      = codeMatchList tblA1 tblB2 ["id"]
    ∧ ([[("id", "1"), ("v", "a"), ("w", "y")],
        [("id", "1"), ("v", "a"), ("w", "y")]] : Table).length
      = (specMatchList tblA1 tblB2 ["id"]).length :=
  innerjoin_match_list_amended tblA1 tblB2 ["id"]
    ([[("id", "1"), ("v", "a"), ("w", "y")]],
     [[("id", "1"), ("v", "a"), ("w", "y")],
      [("id", "1"), ("v", "a"), ("w", "y")]],
     ["id", "v", "w"])
    (by decide) (by decide) (by decide) (by decide) (by decide)

/-- Claim C3: when one A-row matches several B-rows, the left-augmented
table holds, for every B-column, the last matching B-row's value (B wins on
overlapping names; columns outside B keep the A-row's values), while the
match list still receives one appended entry per matching pair. -/
theorem leftaug_last_match_wins (A B : Table) (kw cols : List String)
    (t : Table × Table × List String)
    (h1 : ∀ a ∈ A, ∀ k ∈ kw, hasKey a (pyLower k) = true)
    (h2 : ∀ b ∈ B, ∀ k ∈ kw, hasKey b (pyLower k) = true)
    (h3 : ∀ b ∈ B, rowKeys b = cols)
    (h4 : cols.Nodup)
    (h5 : join A B kw = .ok (some t)) :
    t.1 = A.map (fun a => finalRow kw B a)
    ∧ (∀ a ∈ A, ∀ c : String,
        (c ∈ cols → findVal (finalRow kw B a) c =
          findVal (((B.filter (fun b => rowsMatch kw a b)).getLast?).getD a) c)
        ∧ (c ∉ cols → findVal (finalRow kw B a) c = findVal a c))
    ∧ t.2.1.length =
        (A.map (fun a => B.countP (fun b => rowsMatch kw a b))).sum := by
  have hnd : ∀ b ∈ B, (rowKeys b).Nodup := fun b hb => by
    rw [h3 b hb]; exact h4
  have hA : ∀ a ∈ A, ∀ k ∈ kw, (findVal a (pyLower k)).isSome := by
    intro a ha k hk
    have h := h1 a ha k hk; rwa [hasKey_eq_isSome] at h
  have hB : ∀ b ∈ B, ∀ k ∈ kw, (findVal b (pyLower k)).isSome := by
    intro b hb k hk
    have h := h2 b hb k hk; rwa [hasKey_eq_isSome] at h
  have hval := validateKeys_ok_of_join_ok h5
  rw [join_eq_of_valid hA hB hnd hval] at h5
  have hmid : ∀ a ∈ A, ∀ c : String,
      (c ∈ cols → findVal (finalRow kw B a) c =
        findVal (((B.filter (fun b => rowsMatch kw a b)).getLast?).getD a) c)
      ∧ (c ∉ cols → findVal (finalRow kw B a) c = findVal a c) := by
    intro a _ c
    have hfl := findVal_foldl_update (B.filter (fun b => rowsMatch kw a b))
      cols h4 (fun b hb => h3 b (List.mem_of_mem_filter hb)) a c
    constructor
    · intro hc; rw [finalRow, hfl, if_pos hc]
    · intro hc; rw [finalRow, hfl, if_neg hc]
  have hlen : (codeMatchList A B kw).length =
      (A.map (fun a => B.countP (fun b => rowsMatch kw a b))).sum := by
    simp only [codeMatchList, List.length_flatMap]
    have h : (List.length ∘ fun a : Row =>
          List.replicate (B.countP (fun b => rowsMatch kw a b))
            (finalRow kw B a)) =
        (fun a : Row => B.countP (fun b => rowsMatch kw a b)) := by
      funext a
      simp
    rw [h]
  cases hh : (codeMatchList A B kw).head? with
  | none => rw [hh] at h5; cases h5
  | some fst =>
    rw [hh] at h5
    simp only [Except.ok.injEq, Option.some.injEq] at h5
    rw [← h5]
    exact ⟨rfl, hmid, hlen⟩

/-- Claim C3, witness: the single A-row matches both B-rows; its final
`w` value is the second (last) B-row's `"y"`, its `v` column is untouched,
and the match list has two entries. -/
theorem leftaug_last_match_wins_witness :
    ([[("id", "1"), ("v", "a"), ("w", "y")]] : Table)
        = tblA1.map (fun a => finalRow ["id"] tblB2 a)
    ∧ (∀ a ∈ tblA1, ∀ c : String,
        (c ∈ ["id", "w"] → findVal (finalRow ["id"] tblB2 a) c =
          findVal (((tblB2.filter
            (fun b => rowsMatch ["id"] a b)).getLast?).getD a) c)
        ∧ (c ∉ ["id", "w"] → findVal (finalRow ["id"] tblB2 a) c =
            findVal a c))
    ∧ ([[("id", "1"), ("v", "a"), ("w", "y")],
        [("id", "1"), ("v", "a"), ("w", "y")]] : Table).length =
        (tblA1.map (fun a =>
          tblB2.countP (fun b => rowsMatch ["id"] a b))).sum :=
  leftaug_last_match_wins tblA1 tblB2 ["id"] ["id", "w"]
    ([[("id", "1"), ("v", "a"), ("w", "y")]],
     [[("id", "1"), ("v", "a"), ("w", "y")],
      [("id", "1"), ("v", "a"), ("w", "y")]],
     ["id", "v", "w"])
    (by decide) (by decide) (by decide) (by decide) (by decide)

/-- A first row of B that has no `id` column. -/
def tblNoId : Table := [[("x", "0")]]

/-- File system pairing the scenario A-table with the `id`-less table. -/
def fsMissing : String → Table :=
  fun s => if s = "one.csv" then tblA else tblNoId

/-- Claim C4: a join column absent (case-insensitively) from the first row
of either table makes `join` return the absent result (`None`) — decided by
the validation loop alone, with no constraint on any later row — and all
three drivers then return `None` to their caller and write nothing. -/
theorem missing_column_returns_none (A B : Table) (kw : List String)
    (ra rb : Row)
    (h1 : A.head? = some ra) (h2 : B.head? = some rb)
    (h3 : ∃ k ∈ kw, hasKey ra (pyLower k) = false
      ∨ hasKey rb (pyLower k) = false) :
    join A B kw = .ok none
    ∧ ∀ g : String → Table, ∀ s1 s2 : String, g s1 = A → g s2 = B →
        files_innerjoin g s1 s2 kw = ⟨.ok none, [s1, s2], none⟩
        ∧ files_leftouterjoin g s1 s2 kw = ⟨.ok none, [s1, s2], none⟩
        ∧ files_rightouterjoin g s1 s2 kw = ⟨.ok none, [s1, s2], none⟩ := by
  have hj1 : join A B kw = .ok none := by
    rw [join, validateKeys_none h1 h2 h3]
  have h3s : ∃ k ∈ kw, hasKey rb (pyLower k) = false
      ∨ hasKey ra (pyLower k) = false := by
    obtain ⟨k, hk, hm⟩ := h3
    exact ⟨k, hk, hm.symm⟩
  have hj2 : join B A kw = .ok none := by
    rw [join, validateKeys_none h2 h1 h3s]
  have hkw : kw ≠ [] := by
    obtain ⟨k, hk, _⟩ := h3
    intro he
    subst he
    exact absurd hk (List.not_mem_nil k)
  have hkwe : kw.isEmpty = false := by
    cases kw with
    | nil => exact absurd rfl hkw
    | cons k rest => rfl
  refine ⟨hj1, ?_⟩
  intro g s1 s2 hg1 hg2
  refine ⟨?_, ?_, ?_⟩ <;>
    simp [files_innerjoin, files_leftouterjoin, files_rightouterjoin,
      hkwe, hg1, hg2, hj1, hj2]

/-- Claim C4, witness: `id` column present in A but absent in B. -/
theorem missing_column_returns_none_witness :
    join tblA tblNoId ["id"] = .ok none
    ∧ files_innerjoin fsMissing "one.csv" "two.csv" ["id"] =
        ⟨.ok none, ["one.csv", "two.csv"], none⟩
    ∧ files_leftouterjoin fsMissing "one.csv" "two.csv" ["id"] =
        ⟨.ok none, ["one.csv", "two.csv"], none⟩
    ∧ files_rightouterjoin fsMissing "one.csv" "two.csv" ["id"] =
        ⟨.ok none, ["one.csv", "two.csv"], none⟩ :=
  have h := missing_column_returns_none tblA tblNoId ["id"]
    [("id", "1"), ("name", "x")] [("x", "0")] (by decide) (by decide)
    (by decide)
  have h5 := h.2 fsMissing "one.csv" "two.csv" (by decide) (by decide)
  ⟨h.1, h5.1, h5.2.1, h5.2.2⟩

/-- Two one-row tables that share the `id` column but never match. -/
def tblC : Table := [[("id", "1")]]

/-- The other no-match table. -/
def tblD : Table := [[("id", "2")]]

/-- File system for the no-match fixture. -/
def fsCD : String → Table := fun s => if s = "one.csv" then tblC else tblD

/-- Claim C5, counterexample: with valid tables and zero matching pairs the
driver does **not** return the sentinel-absent result — `data_list[0]`
raises `IndexError` inside `join` and the exception propagates out of
`files_innerjoin` (no file is written either way). -/
theorem nomatch_raises_cex :
    files_innerjoin fsCD "one.csv" "two.csv" ["id"] =
      ⟨.error .indexError, ["one.csv", "two.csv"], none⟩
    ∧ ¬ (files_innerjoin fsCD "one.csv" "two.csv" ["id"]).result = .ok none
    ∧ (files_innerjoin fsCD "one.csv" "two.csv" ["id"]).writes = none :=
  ⟨by decide, by decide, by decide⟩

/-- Claim C5, amended: with non-empty valid inputs and zero matching
pairs, `join` raises `IndexError` (empty `data_list` indexed at 0); the
error propagates through each driver — the caller sees the exception, not
a `None` — and no output is written. -/
theorem nomatch_raises_indexerror (A B : Table) (kw : List String)
    (h0 : kw ≠ []) (hA : A ≠ []) (hB : B ≠ [])
    (h1 : ∀ a ∈ A, ∀ k ∈ kw, hasKey a (pyLower k) = true)
    (h2 : ∀ b ∈ B, ∀ k ∈ kw, hasKey b (pyLower k) = true)
    (h3 : ∀ a ∈ A, ∀ b ∈ B, rowsMatch kw a b = false) :
    join A B kw = .error .indexError
    ∧ ∀ g : String → Table, ∀ s1 s2 : String, g s1 = A → g s2 = B →
        files_innerjoin g s1 s2 kw = ⟨.error .indexError, [s1, s2], none⟩
        ∧ files_leftouterjoin g s1 s2 kw =
            ⟨.error .indexError, [s1, s2], none⟩
        ∧ files_rightouterjoin g s1 s2 kw =
            ⟨.error .indexError, [s1, s2], none⟩ := by
  obtain ⟨ra, hra⟩ := Option.isSome_iff_exists.mp (List.head?_isSome.mpr hA)
  obtain ⟨rb, hrb⟩ := Option.isSome_iff_exists.mp (List.head?_isSome.mpr hB)
  have hraM : ra ∈ A := List.mem_of_mem_head? hra
  have hrbM : rb ∈ B := List.mem_of_mem_head? hrb
  have hA1 : ∀ a ∈ A, ∀ k ∈ kw, (findVal a (pyLower k)).isSome := by
    intro a ha k hk
    have h := h1 a ha k hk; rwa [hasKey_eq_isSome] at h
  have hB1 : ∀ b ∈ B, ∀ k ∈ kw, (findVal b (pyLower k)).isSome := by
    intro b hb k hk
    have h := h2 b hb k hk; rwa [hasKey_eq_isSome] at h
  have hval1 : validateKeys A B kw = .ok true :=
    validateKeys_ok hra hrb
      (fun k hk => ⟨h1 ra hraM k hk, h2 rb hrbM k hk⟩)
  have hval2 : validateKeys B A kw = .ok true :=
    validateKeys_ok hrb hra
      (fun k hk => ⟨h2 rb hrbM k hk, h1 ra hraM k hk⟩)
  have h3s : ∀ b ∈ B, ∀ a ∈ A, rowsMatch kw b a = false := by
    intro b hb a ha
    rw [rowsMatch_comm]
    exact h3 a ha b hb
  have hj1 : join A B kw = .error .indexError :=
    join_nomatch hA1 hB1 h3 hval1
  have hj2 : join B A kw = .error .indexError :=
    join_nomatch hB1 hA1 h3s hval2
  have hkwe : kw.isEmpty = false := by
    cases kw with
    | nil => exact absurd rfl h0
    | cons k rest => rfl
  refine ⟨hj1, ?_⟩
  intro g s1 s2 hg1 hg2
  refine ⟨?_, ?_, ?_⟩ <;>
    simp [files_innerjoin, files_leftouterjoin, files_rightouterjoin,
      hkwe, hg1, hg2, hj1, hj2]

/-- Claim C5, amended, witness at the `id = 1` / `id = 2` fixture. -/
theorem nomatch_raises_indexerror_witness :
    join tblC tblD ["id"] = .error .indexError
    ∧ files_innerjoin fsCD "one.csv" "two.csv" ["id"] =
        ⟨.error .indexError, ["one.csv", "two.csv"], none⟩
    ∧ files_leftouterjoin fsCD "one.csv" "two.csv" ["id"] =
        ⟨.error .indexError, ["one.csv", "two.csv"], none⟩
    ∧ files_rightouterjoin fsCD "one.csv" "two.csv" ["id"] =
        ⟨.error .indexError, ["one.csv", "two.csv"], none⟩ :=
  have h := nomatch_raises_indexerror tblC tblD ["id"] (by decide) (by decide)
    (by decide) (by decide) (by decide) (by decide)
  have h5 := h.2 fsCD "one.csv" "two.csv" (by decide) (by decide)
  ⟨h.1, h5.1, h5.2.1, h5.2.2⟩

/-- Claim C8: when both rows carry the (lower-cased) JoinSpec columns,
`check` is truthy iff every named column holds exactly equal string values
in both rows; and a first mismatching column yields `False` immediately —
the columns after it are never inspected (they may even be missing from
the rows without raising `KeyError`). -/
theorem check_conjunctive_shortcircuit (a b : Row) :
    (∀ w : List String,
        (∀ k ∈ w, hasKey a (pyLower k) = true ∧ hasKey b (pyLower k) = true) →
        (check a b w = .ok true ↔
          ∀ k ∈ w, findVal a (pyLower k) = findVal b (pyLower k)))
    ∧ (∀ x y : List String, ∀ k v1 v2 : String,
        (∀ j ∈ x, hasKey a (pyLower j) = true
          ∧ findVal a (pyLower j) = findVal b (pyLower j)) →
        findVal a (pyLower k) = some v1 → findVal b (pyLower k) = some v2 →
        v1 ≠ v2 → check a b (x ++ k :: y) = .ok false) := by
  constructor
  · intro w hpres
    have hA : ∀ k ∈ w, (findVal a (pyLower k)).isSome := fun k hk => by
      have h := (hpres k hk).1; rwa [hasKey_eq_isSome] at h
    have hB : ∀ k ∈ w, (findVal b (pyLower k)).isSome := fun k hk => by
      have h := (hpres k hk).2; rwa [hasKey_eq_isSome] at h
    rw [check_eq_rowsMatch hA hB]
    constructor
    · intro h
      simp only [Except.ok.injEq] at h
      exact (rowsMatch_eq_true_iff w a b).mp h
    · intro h
      rw [(rowsMatch_eq_true_iff w a b).mpr h]
  · intro x y k v1 v2 hpre hva hvb hne
    induction x with
    | nil =>
      rw [List.nil_append, check, hva, hvb]
      show (if v1 ≠ v2 then (Except.ok false : Except PyError Bool)
        else check a b y) = Except.ok false
      rw [if_pos hne]
    | cons j x1 ih =>
      obtain ⟨hjk, hjeq⟩ := hpre j (by simp)
      rw [hasKey_eq_isSome] at hjk
      obtain ⟨v, hv⟩ := Option.isSome_iff_exists.mp hjk
      have hvb2 : findVal b (pyLower j) = some v := hjeq.symm.trans hv
      rw [List.cons_append, check, hv, hvb2]
      show (if v ≠ v then (Except.ok false : Except PyError Bool)
        else check a b (x1 ++ k :: y)) = Except.ok false
      rw [if_neg (by simp)]
      exact ih (fun j1 hj1 => hpre j1 (by simp [hj1]))

/-- Claim C8, witness: equal `id` values are truthy; a mismatch on `x`
short-circuits even though the later column `zzz` is absent from both
rows. -/
theorem check_conjunctive_shortcircuit_witness :
    (check [("id", "1")] [("id", "1")] ["id"] = .ok true ↔
      ∀ k ∈ ["id"], findVal [("id", "1")] (pyLower k) =
        findVal [("id", "1")] (pyLower k))
    ∧ check [("id", "1"), ("x", "2")] [("id", "1"), ("x", "3")]
        (["id"] ++ "x" :: ["zzz"]) = .ok false :=
  ⟨(check_conjunctive_shortcircuit [("id", "1")] [("id", "1")]).1 ["id"]
      (by decide),
   (check_conjunctive_shortcircuit [("id", "1"), ("x", "2")]
      [("id", "1"), ("x", "3")]).2 ["id"] ["zzz"] "x" "2" "3"
      (by decide) (by decide) (by decide) (by decide)⟩

theorem joinInner_empty_kw (bs : Table) (a : Row) :
    joinInner [] a bs = .ok (bs.foldl updateRow a, bs.length) := by
  induction bs generalizing a with
  | nil => rfl
  | cons b rest ih => simp [joinInner, check, ih]

theorem joinOuter_empty_kw (as1 bs : Table) :
    joinOuter [] as1 bs =
      .ok (as1.map (fun a => (bs.foldl updateRow a, bs.length))) := by
  induction as1 with
  | nil => rfl
  | cons a rest ih => simp [joinOuter, joinInner_empty_kw, ih]

/-- Claim C9: `join` itself does not reject an empty JoinSpec — the
validation loop is vacuous, `check` is truthy on every pair, every pair of
`A × B` matches (the match list has `|A| · |B|` entries), and only the
three file-level drivers return `None` on an empty spec. -/
theorem join_accepts_empty_spec (A B : Table) (hA : A ≠ []) (hB : B ≠ []) :
    (∀ d1 d2 : Row, check d1 d2 [] = .ok true)
    ∧ (∃ t : Table × Table × List String,
        join A B [] = .ok (some t)
        ∧ t.2.1.length = A.length * B.length)
    ∧ (∀ g : String → Table, ∀ s1 s2 : String,
        files_innerjoin g s1 s2 [] = ⟨.ok none, [], none⟩
        ∧ files_leftouterjoin g s1 s2 [] = ⟨.ok none, [], none⟩
        ∧ files_rightouterjoin g s1 s2 [] = ⟨.ok none, [], none⟩) := by
  refine ⟨fun d1 d2 => rfl, ?_, fun g s1 s2 => ⟨rfl, rfl, rfl⟩⟩
  obtain ⟨a0, A1, rfl⟩ := List.exists_cons_of_ne_nil hA
  obtain ⟨b0, B1, rfl⟩ := List.exists_cons_of_ne_nil hB
  have hlen : ∀ l : Table, (l.flatMap (fun a =>
      List.replicate (b0 :: B1).length ((b0 :: B1).foldl updateRow a))).length
      = l.length * (b0 :: B1).length := by
    intro l
    induction l with
    | nil => simp
    | cons x xs ih =>
      rw [List.flatMap_cons, List.length_append, List.length_replicate, ih]
      simp only [List.length_cons]
      ring
  refine ⟨⟨(a0 :: A1).map (fun a => (b0 :: B1).foldl updateRow a),
    (a0 :: A1).flatMap (fun a =>
      List.replicate (b0 :: B1).length ((b0 :: B1).foldl updateRow a)),
    rowKeys ((b0 :: B1).foldl updateRow a0)⟩, ?_, ?_⟩
  · rw [join, show validateKeys (a0 :: A1) (b0 :: B1) [] = .ok true from rfl,
      joinOuter_empty_kw]
    simp only [flatMap_map_pair, List.map_map]
    rfl
  · exact hlen (a0 :: A1)

/-- Claim C9, witness at one-row tables with unrelated columns. -/
theorem join_accepts_empty_spec_witness :
    (∀ d1 d2 : Row, check d1 d2 [] = .ok true)
    ∧ (∃ t : Table × Table × List String,
        join tblA1 tblNoId [] = .ok (some t)
        ∧ t.2.1.length = tblA1.length * tblNoId.length)
    ∧ (∀ g : String → Table, ∀ s1 s2 : String,
        files_innerjoin g s1 s2 [] = ⟨.ok none, [], none⟩
        ∧ files_leftouterjoin g s1 s2 [] = ⟨.ok none, [], none⟩
        ∧ files_rightouterjoin g s1 s2 [] = ⟨.ok none, [], none⟩) :=
  join_accepts_empty_spec tblA1 tblNoId (by decide) (by decide)

/-- A one-row table without the `id` column (for the empty-table claim). -/
def tblX : Table := [[("x", "1")]]

/-- Claim C10, counterexample: with JoinSpec `["id"]`, A nonempty but
missing the `id` column and B **empty**, `join` does not fail at all — the
`or` short-circuits before `file2_data[0]` is evaluated and `join` returns
`None`. -/
theorem join_empty_table_cex :
    join tblX ([] : Table) ["id"] = .ok none
    ∧ ¬ join tblX ([] : Table) ["id"] = .error .indexError
    ∧ ¬ join tblX ([] : Table) ["id"] = .error .keyError :=
  ⟨by decide, by decide, by decide⟩

/-- Claim C10, amended: with at least one join column, an empty Table A
always raises `IndexError` during validation (`file1_data[0]`); an empty
Table B raises `IndexError` provided the first join column is present in
A's first row (otherwise the `or` short-circuits and `join` returns
`None`, as the counterexample shows). -/
theorem join_empty_tables_amended (A B : Table) (kw : List String)
    (k : String) (ra : Row) :
    join ([] : Table) B (k :: kw) = .error .indexError
    ∧ (A.head? = some ra → hasKey ra (pyLower k) = true →
        join A ([] : Table) (k :: kw) = .error .indexError) := by
  constructor
  · rw [join]
    rw [show validateKeys ([] : Table) B (k :: kw) = .error .indexError
      from rfl]
  · intro h1 h2
    rw [join, validateKeys, h1]
    simp only [h2, not_true_eq_false, if_false, ite_false]
    rfl

/-- Claim C10, amended, witness: empty A raises; empty B raises when A's
first row has the join column. -/
theorem join_empty_tables_amended_witness :
    join ([] : Table) tblB2 ["id"] = .error .indexError
    ∧ join tblC ([] : Table) ["id"] = .error .indexError :=
  ⟨(join_empty_tables_amended tblC tblB2 [] "id" [("id", "1")]).1,
   (join_empty_tables_amended tblC tblB2 [] "id" [("id", "1")]).2
     (by decide) (by decide)⟩

end Lesson018
